import Mathlib

/-!
Shallow embedding of the PerfKitBenchmarker excerpt:
  perfkitbenchmarker/providers/aws/util.py
  perfkitbenchmarker/data/messaging_service/aws_sqs_client.py

Python strings are Lean `String`s (lists of characters); Python exceptions
are modelled with `Except` over explicit error types; Python dictionaries
passed to the tag formatters are association lists in iteration order.
-/

namespace PKB

/-- Python exception values raised by the embedded code. -/
inductive PyError where
  | valueError (msg : String)
  | exception (msg : String)
  | keyError (key : String)
  | indexError
  | queueNotFound
deriving DecidableEq

instance {ε α : Type} [DecidableEq ε] [DecidableEq α] : DecidableEq (Except ε α) :=
  fun a b =>
    match a, b with
    | .ok x, .ok y =>
      if h : x = y then isTrue (h ▸ rfl) else isFalse (fun hc => h (Except.ok.inj hc))
    | .error e, .error f =>
      if h : e = f then isTrue (h ▸ rfl) else isFalse (fun hc => h (Except.error.inj hc))
    | .ok _, .error _ => isFalse (fun hc => Except.noConfusion hc)
    | .error _, .ok _ => isFalse (fun hc => Except.noConfusion hc)

/-- Membership of a character in the regex class `[a-z]` (codepoints 97..122). -/
def isLowerChar (c : Char) : Bool := 97 ≤ c.toNat && c.toNat ≤ 122

/-- Membership of a character in the regex class `[0-9]`, which coincides with
Python's `string.digits` test used by `IsRegion` (codepoints 48..57). -/
def isDigitChar (c : Char) : Bool := 48 ≤ c.toNat && c.toNat ≤ 57

/-- Python's `$` anchor in non-MULTILINE mode: matches at the end of the string
or just before a newline that is the last character. -/
def matchDollar : List Char → Bool
  | [] => true
  | [c] => c = '\n'
  | _ => false

/-- Matches the regex fragment `[a-z]?$` against the remaining characters. -/
def matchOptLetterEnd : List Char → Bool
  | [] => true
  | c :: cs => (isLowerChar c && matchDollar cs) || matchDollar (c :: cs)

/-- Matches the regex fragment `[a-z]*-[0-9][a-z]?$` (the continuation of the
`[a-z]+` word, then the hyphen, digit and optional letter).  The classes `[a-z]`
and `-` are disjoint, so the Python engine's backtracking is deterministic and
this direct recursion is exact. -/
def matchWordTail : List Char → Bool
  | [] => false
  | c :: cs =>
    if c = '-' then
      match cs with
      | [] => false
      | d :: rest => isDigitChar d && matchOptLetterEnd rest
    else
      isLowerChar c && matchWordTail cs

/-- Model of `re.match` of the pattern `[a-z]{2}-[a-z]+-[0-9][a-z]?$` used by `IsRegion`:
anchored at the start, with `$` behaving as in Python. -/
def matchZoneOrRegion : List Char → Bool
  | c1 :: c2 :: h :: c3 :: cs =>
    isLowerChar c1 && isLowerChar c2 && (h = '-') && isLowerChar c3 && matchWordTail cs
  | _ => false

/-- The test `re.match(r'[a-z]\x7b2\x7d-[a-z]+-[0-9][a-z]?$', s)` from `IsRegion`. -/
def pyRegexMatch (s : String) : Bool := matchZoneOrRegion s.data

/-- A string that matches the zone/region lexical pattern with nothing after
it: two lowercase letters, hyphen, a non-empty lowercase word, hyphen, one
digit, optional trailing lowercase letter.  This is the spec's reading of the
pattern; it is the Python regex minus the `$`-before-final-newline allowance. -/
def StrictZonePattern (s : String) : Prop :=
  ∃ (c1 c2 : Char) (w : List Char) (d : Char) (t : List Char),
    s.data = c1 :: c2 :: '-' :: (w ++ '-' :: d :: t) ∧
    isLowerChar c1 = true ∧ isLowerChar c2 = true ∧ w ≠ [] ∧
    (∀ c ∈ w, isLowerChar c = true) ∧ isDigitChar d = true ∧
    (t = [] ∨ ∃ c, isLowerChar c = true ∧ t = [c])

/-- Embedding of `util.IsRegion`: raises `ValueError` when the string matches neither the zone
nor the region pattern; otherwise reports whether the last character is a digit
(`zone_or_region[-1] in string.digits`). -/
def IsRegion (zone_or_region : String) : Except PyError Bool :=
  if pyRegexMatch zone_or_region then
    match zone_or_region.data.getLast? with
    | some c => .ok (isDigitChar c)
    | none => .error .indexError
  else
    .error (.valueError (zone_or_region ++ " is not a valid AWS zone or region name"))

/-- Embedding of `util.GetRegionFromZone`: returns the argument itself when it is a region,
and the argument without its last character (`zone_or_region[:-1]`) otherwise.
Propagates the `ValueError` from `IsRegion`. -/
def GetRegionFromZone (zone_or_region : String) : Except PyError String :=
  match IsRegion zone_or_region with
  | .error e => .error e
  | .ok true => .ok zone_or_region
  | .ok false => .ok (String.mk zone_or_region.data.dropLast)

/-- Python `sep.join(parts)`. -/
def pyJoin (sep : String) : List String → String
  | [] => ""
  | [x] => x
  | x :: xs => x ++ sep ++ pyJoin sep xs

/-- Loop body of `util.GetRegionFromZones`: folds the zones, remembering the
first derived region and raising `Exception` on a mismatch.  `zones` is the
whole original collection (used only in the error message). -/
def GetRegionFromZonesAux (zones : List String) :
    Option String → List String → Except PyError (Option String)
  | region, [] => .ok region
  | region, zone :: rest =>
    match GetRegionFromZone zone with
    | .error e => .error e
    | .ok current =>
      match region with
      | none => GetRegionFromZonesAux zones (some current) rest
      | some r =>
        if r ≠ current then
          .error (.exception ("Not All zones are in the same region " ++ r ++
            " not same as " ++ current ++ ". zones: " ++ pyJoin "," zones))
        else
          GetRegionFromZonesAux zones (some r) rest

/-- Embedding of `util.GetRegionFromZones`: the region a set of zones is in (`none` when the
collection is empty, mirroring the Python function returning `None`). -/
def GetRegionFromZones (zones : List String) : Except PyError (Option String) :=
  GetRegionFromZonesAux zones none zones

/-- Python's `<` on single characters: comparison of Unicode codepoints. -/
def charLtB (c d : Char) : Bool := decide (c.toNat < d.toNat)

/-- Python's `<` on strings: lexicographic comparison of codepoint sequences. -/
def strLtB : List Char → List Char → Bool
  | [], [] => false
  | [], _ :: _ => true
  | _ :: _, [] => false
  | c :: cs, d :: ds => charLtB c d || (decide (c = d) && strLtB cs ds)

/-- Python's `a < b` on strings. -/
def pyStrLt (a b : String) : Bool := strLtB a.data b.data

/-- Python's `a <= b` on strings: `a < b or a == b`. -/
def pyStrLe (a b : String) : Bool := pyStrLt a b || decide (a = b)

/-- Python's tuple comparison `(k1, v1) <= (k2, v2)` on string pairs, the order
in which `sorted` arranges the items of a tag dict. -/
def tagLe (p q : String × String) : Bool :=
  pyStrLt p.1 q.1 || (decide (p.1 = q.1) && pyStrLe p.2 q.2)

/-- Relation form of `tagLe`, for use with `List.insertionSort`. -/
def tagOrder (p q : String × String) : Prop := tagLe p q = true

instance : DecidableRel tagOrder := fun p q =>
  inferInstanceAs (Decidable (tagLe p q = true))

/-- Python's `sorted(six.iteritems(tags_dict))`: a stable sort of the pairs
under lexicographic tuple comparison.  Tuple comparison is antisymmetric, so
every correct sorting algorithm produces the same list and insertion sort is an
exact model. -/
def pySortedTags (tags_dict : List (String × String)) : List (String × String) :=
  List.insertionSort tagOrder tags_dict

/-- Embedding of `util.FormatTags`: formats a dict of tags into arguments for the `tag`
parameter, one string `Key=k,Value=v` per pair, pairs sorted. -/
def FormatTags (tags_dict : List (String × String)) : List String :=
  (pySortedTags tags_dict).map (fun kv => "Key=" ++ kv.1 ++ ",Value=" ++ kv.2)

/-- Embedding of `util.FormatTagSpecifications`: formats a dict of tags into the argument of
the `tag-specifications` parameter.  The pairs are taken in dictionary
iteration order (`six.iteritems`), without sorting. -/
def FormatTagSpecifications (resource_type : String)
    (tags_dict : List (String × String)) : String :=
  let tags := pyJoin ","
    (tags_dict.map (fun kv => "\x7bKey=" ++ kv.1 ++ ",Value=" ++ kv.2 ++ "\x7d"))
  "ResourceType=" ++ resource_type ++ ",Tags=[" ++ tags ++ "]"

/-! ### CommandRunner: `util.IssueRetryableCommand` and its collaborators -/

/-- The result of one external command invocation: standard output, standard
error, and exit code. -/
structure CommandResult where
  stdout : String
  stderr : String
  retcode : Nat
deriving DecidableEq

/-- Errors raised by the command runner.  `retryBudgetExhausted` wraps the last
failure once the retry policy gives up. -/
inductive CmdError where
  | calledProcess (msg : String)
  | retryBudgetExhausted (last : CmdError)
deriving DecidableEq

/-- Modelled from the spec: `vm_util.IssueCommand` (vm_util is not part of the
excerpt) called with `raise_on_failure=False`.  The process produces `res`; the
optional `suppress_failure` parameter is a predicate over the failed
CommandResult that, when true, converts what would be a failure (nonzero exit
or non-empty stderr) into a successful no-op return. -/
def IssueCommandModel (suppress_failure : Option (CommandResult → Bool))
    (res : CommandResult) : CommandResult :=
  match suppress_failure with
  | none => res
  | some f =>
    if (decide (res.retcode ≠ 0) || decide (res.stderr ≠ "")) && f res then
      ⟨"", "", 0⟩
    else
      res

/-- The body of `util.IssueRetryableCommand` (one attempt, before the `Retry`
decorator is applied): calls `vm_util.IssueCommand`, raises
`CalledProcessException` on a nonzero exit code, raises it again when the exit
code is zero but stderr is non-empty, and otherwise returns `(stdout, stderr)`. -/
def IssueRetryableCommandBody (suppress_failure : Option (CommandResult → Bool))
    (res : CommandResult) : Except CmdError (String × String) :=
  let r := IssueCommandModel suppress_failure res
  if r.retcode ≠ 0 then
    .error (.calledProcess "Command returned a non-zero exit code.\n")
  else if r.stderr ≠ "" then
    .error (.calledProcess ("The command had output on stderr:\n" ++ r.stderr))
  else
    .ok (r.stdout, r.stderr)

/-- Modelled from the spec: the `@vm_util.Retry()` decorator (vm_util is not
part of the excerpt) repeats the wrapped call under an exponential-backoff
policy with a bounded retry count until an attempt succeeds or the budget is
exhausted, then fails wrapping the last failure.  `attempt i` is the result of
the `i`-th invocation; the second component counts invocations made.  The
backoff sleeps are timing-only and are not observable in this embedding. -/
def RetryCall (attempt : Nat → Except CmdError (String × String)) :
    Nat → Nat → Except CmdError (String × String) × Nat
  | _, 0 => (.error (.retryBudgetExhausted (.calledProcess "")), 0)
  | i, 1 =>
    match attempt i with
    | .ok v => (.ok v, 1)
    | .error e => (.error (.retryBudgetExhausted e), 1)
  | i, n + 2 =>
    match attempt i with
    | .ok v => (.ok v, 1)
    | .error _ =>
      let r := RetryCall attempt (i + 1) (n + 1)
      (r.1, r.2 + 1)

/-- Embedding of `util.IssueRetryableCommand`: the body wrapped in the retry policy.
`attempts i` is the `CommandResult` the external process would produce on its
`i`-th invocation; `budget` is the maximum number of attempts. -/
def IssueRetryableCommand (attempts : Nat → CommandResult)
    (suppress_failure : Option (CommandResult → Bool)) (budget : Nat) :
    Except CmdError (String × String) × Nat :=
  RetryCall (fun i => IssueRetryableCommandBody suppress_failure (attempts i)) 0 budget

/-! ### MessagingClient: `aws_sqs_client.AWSSQSInterface` -/

/-- A resolved SQS queue resource (only its URL is observable here). -/
structure SQSQueue where
  url : String
deriving DecidableEq

/-- The provider-side state the client is constructed against: which
(region, queue-name) pairs resolve to a queue resource. -/
structure SQSEnv where
  queues : String → String → Option SQSQueue

/-- Modelled from the spec: boto3's `sqs_resource.get_queue_by_name` resolves
the named queue in the region, failing (`QueueNotFound`) when no such queue
exists. -/
def get_queue_by_name (env : SQSEnv) (region_name QueueName : String) :
    Except PyError SQSQueue :=
  match env.queues region_name QueueName with
  | some q => .ok q
  | none => .error .queueNotFound

/-- State of `AWSSQSInterface` after construction: region, queue name, and the queue
resource resolved by `__init__`. -/
structure AWSSQSInterface where
  region_name : String
  queue_name : String
  queue : SQSQueue
deriving DecidableEq

/-- Embedding of `AWSSQSInterface.__init__`: stores the region and queue name and resolves
the queue via `get_queue_by_name` during construction itself, so a missing
queue fails the constructor. -/
def AWSSQSInterface.init (env : SQSEnv) (region_name queue_name : String) :
    Except PyError AWSSQSInterface :=
  match get_queue_by_name env region_name queue_name with
  | .error e => .error e
  | .ok q => .ok ⟨region_name, queue_name, q⟩

/-- One received message as a dictionary: the keys that
`_acknowledge_received_message` reads, each possibly absent. -/
structure SQSMessageDict where
  receiptHandle : Option String
deriving DecidableEq

/-- The response dictionary of `sqs_client.receive_message`: the `Messages` key
is absent when the pull timed out with nothing available. -/
structure SQSPullResponse where
  messages : Option (List SQSMessageDict)
deriving DecidableEq

/-- The observable effect of `sqs_client.delete_message`: which queue URL and
receipt handle it was called with. -/
structure DeleteMessageCall where
  queueUrl : String
  receiptHandle : String
deriving DecidableEq

/-- Embedding of `AWSSQSInterface._acknowledge_received_message`: reads
`response['Messages'][0]['ReceiptHandle']` (raising `KeyError`/`IndexError`
exactly where Python would) and calls `delete_message` with it. -/
def AWSSQSInterface.acknowledge_received_message (c : AWSSQSInterface)
    (response : SQSPullResponse) : Except PyError DeleteMessageCall :=
  match response.messages with
  | none => .error (.keyError "Messages")
  | some ms =>
    match ms with
    | [] => .error .indexError
    | message :: _ =>
      match message.receiptHandle with
      | none => .error (.keyError "ReceiptHandle")
      | some handle => .ok ⟨c.queue.url, handle⟩

end PKB

example : PKB.IsRegion "us-west-1" = .ok true := rfl
example : PKB.IsRegion "us-west-1a" = .ok false := rfl
example : PKB.GetRegionFromZone "us-west-1a" = .ok "us-west-1" := rfl
example : ∃ e, PKB.IsRegion "foo" = .error e := ⟨_, rfl⟩
example : PKB.IsRegion "us-west-1a\n" = .ok false := rfl
example : PKB.GetRegionFromZone "us-west-1a\n" = .ok "us-west-1a" := rfl
example : PKB.FormatTags [("b", "2"), ("a", "1")] = ["Key=a,Value=1", "Key=b,Value=2"] := rfl
example : PKB.FormatTagSpecifications "instance" [("b", "2"), ("a", "1")] =
    "ResourceType=instance,Tags=[\x7bKey=b,Value=2\x7d,\x7bKey=a,Value=1\x7d]" := rfl
example : PKB.GetRegionFromZones ["us-west-1a", "us-west-1b"] = .ok (some "us-west-1") := rfl
example : ∃ m, PKB.GetRegionFromZones ["us-west-1a", "us-east-1a"] = .error (.exception m) := ⟨_, rfl⟩

namespace PKB

/-! ### Order properties of the Python string / tuple comparison -/

theorem string_eq_of_data_eq {a b : String} (h : a.data = b.data) : a = b := by
  cases a; cases b; exact congrArg String.mk h

theorem charLtB_irrefl (c : Char) : charLtB c c = false := by
  simp [charLtB]

theorem charLtB_trans {a b c : Char} (h1 : charLtB a b = true)
    (h2 : charLtB b c = true) : charLtB a c = true := by
  simp only [charLtB, decide_eq_true_eq] at h1 h2 ⊢
  omega

theorem charLtB_eq_of_not_lt {a b : Char} (h1 : charLtB a b = false)
    (h2 : charLtB b a = false) : a = b := by
  simp only [charLtB, decide_eq_false_iff_not, not_lt] at h1 h2
  exact Char.eq_of_val_eq (UInt32.ext (le_antisymm h2 h1))

theorem strLtB_irrefl : ∀ as : List Char, strLtB as as = false
  | [] => rfl
  | a :: as => by simp [strLtB, charLtB_irrefl, strLtB_irrefl as]

theorem strLtB_trans :
    ∀ as bs cs : List Char, strLtB as bs = true → strLtB bs cs = true →
      strLtB as cs = true
  | [], [], _, h1, _ => by simp [strLtB] at h1
  | [], _ :: _, [], _, h2 => by simp [strLtB] at h2
  | [], _ :: _, _ :: _, _, _ => by simp [strLtB]
  | _ :: _, [], _, h1, _ => by simp [strLtB] at h1
  | _ :: _, _ :: _, [], _, h2 => by simp [strLtB] at h2
  | a :: as, b :: bs, c :: cs, h1, h2 => by
    simp only [strLtB, Bool.or_eq_true, Bool.and_eq_true, decide_eq_true_eq] at h1 h2 ⊢
    rcases h1 with h1 | ⟨rfl, h1⟩
    · rcases h2 with h2 | ⟨rfl, h2⟩
      · exact Or.inl (charLtB_trans h1 h2)
      · exact Or.inl h1
    · rcases h2 with h2 | ⟨rfl, h2⟩
      · exact Or.inl h2
      · exact Or.inr ⟨rfl, strLtB_trans as bs cs h1 h2⟩

theorem strLtB_asymm {as bs : List Char} (h : strLtB as bs = true) :
    strLtB bs as = false := by
  by_contra hc
  rw [Bool.not_eq_false] at hc
  have := strLtB_trans as bs as h hc
  rw [strLtB_irrefl] at this
  exact Bool.false_ne_true this

theorem strLtB_eq_of_not_lt :
    ∀ as bs : List Char, strLtB as bs = false → strLtB bs as = false → as = bs
  | [], [], _, _ => rfl
  | [], _ :: _, h1, _ => by simp [strLtB] at h1
  | _ :: _, [], _, h2 => by simp [strLtB] at h2
  | a :: as, b :: bs, h1, h2 => by
    simp only [strLtB, Bool.or_eq_false_iff, Bool.and_eq_false_iff,
      decide_eq_false_iff_not] at h1 h2
    obtain ⟨hab, h1'⟩ := h1
    obtain ⟨hba, h2'⟩ := h2
    have hab' : a = b := charLtB_eq_of_not_lt hab hba
    subst hab'
    rcases h1' with h1' | h1'
    · exact absurd rfl h1'
    · rcases h2' with h2' | h2'
      · exact absurd rfl h2'
      · rw [strLtB_eq_of_not_lt as bs h1' h2']

theorem pyStrLe_refl (a : String) : pyStrLe a a = true := by
  simp [pyStrLe]

theorem pyStrLe_total (a b : String) : pyStrLe a b = true ∨ pyStrLe b a = true := by
  rcases h1 : strLtB a.data b.data with _ | _
  · rcases h2 : strLtB b.data a.data with _ | _
    · exact Or.inl (by
        simp [pyStrLe, string_eq_of_data_eq (strLtB_eq_of_not_lt _ _ h1 h2)])
    · exact Or.inr (by simp [pyStrLe, pyStrLt, h2])
  · exact Or.inl (by simp [pyStrLe, pyStrLt, h1])

theorem pyStrLe_antisymm {a b : String} (h1 : pyStrLe a b = true)
    (h2 : pyStrLe b a = true) : a = b := by
  simp only [pyStrLe, pyStrLt, Bool.or_eq_true, decide_eq_true_eq] at h1 h2
  rcases h1 with h1 | rfl
  · rcases h2 with h2 | rfl
    · exact absurd h2 (by simp [strLtB_asymm h1])
    · rfl
  · rfl

theorem pyStrLe_trans {a b c : String} (h1 : pyStrLe a b = true)
    (h2 : pyStrLe b c = true) : pyStrLe a c = true := by
  simp only [pyStrLe, pyStrLt, Bool.or_eq_true, decide_eq_true_eq] at h1 h2 ⊢
  rcases h1 with h1 | rfl
  · rcases h2 with h2 | rfl
    · exact Or.inl (strLtB_trans _ _ _ h1 h2)
    · exact Or.inl h1
  · exact h2

theorem tagOrder_iff {p q : String × String} :
    tagOrder p q ↔
      pyStrLt p.1 q.1 = true ∨ (p.1 = q.1 ∧ pyStrLe p.2 q.2 = true) := by
  simp [tagOrder, tagLe, Bool.or_eq_true, Bool.and_eq_true, decide_eq_true_eq]

theorem pyStrLt_asymm {a b : String} (h : pyStrLt a b = true) :
    pyStrLt b a = false := strLtB_asymm h

instance : IsTotal (String × String) tagOrder := by
  constructor
  intro p q
  rcases h1 : pyStrLt p.1 q.1 with _ | _
  · rcases h2 : pyStrLt q.1 p.1 with _ | _
    · have hk : p.1 = q.1 := string_eq_of_data_eq (strLtB_eq_of_not_lt _ _ h1 h2)
      rcases pyStrLe_total p.2 q.2 with hv | hv
      · exact Or.inl (tagOrder_iff.mpr (Or.inr ⟨hk, hv⟩))
      · exact Or.inr (tagOrder_iff.mpr (Or.inr ⟨hk.symm, hv⟩))
    · exact Or.inr (tagOrder_iff.mpr (Or.inl h2))
  · exact Or.inl (tagOrder_iff.mpr (Or.inl h1))

instance : IsTrans (String × String) tagOrder := by
  constructor
  intro p q r hpq hqr
  rw [tagOrder_iff] at hpq hqr ⊢
  rcases hpq with h1 | ⟨hk1, hv1⟩
  · rcases hqr with h2 | ⟨hk2, _⟩
    · exact Or.inl (strLtB_trans _ _ _ h1 h2)
    · exact Or.inl (hk2 ▸ h1)
  · rcases hqr with h2 | ⟨hk2, hv2⟩
    · exact Or.inl (hk1 ▸ h2)
    · exact Or.inr ⟨hk1.trans hk2, pyStrLe_trans hv1 hv2⟩

instance : IsAntisymm (String × String) tagOrder := by
  constructor
  intro p q hpq hqp
  rw [tagOrder_iff] at hpq hqp
  rcases hpq with h1 | ⟨hk1, hv1⟩
  · rcases hqp with h2 | ⟨hk2, _⟩
    · exact absurd h2 (by simp [pyStrLt_asymm h1])
    · rw [hk2] at h1
      exact absurd h1 (by simp [pyStrLt, strLtB_irrefl])
  · rcases hqp with h2 | ⟨_, hv2⟩
    · rw [hk1] at h2
      exact absurd h2 (by simp [pyStrLt, strLtB_irrefl])
    · exact Prod.ext hk1 (pyStrLe_antisymm hv1 hv2)

end PKB

namespace PKB

/-! ### Lemmas about the zone/region regex -/

theorem isLowerChar_ne_hyphen {c : Char} (h : isLowerChar c = true) : c ≠ '-' := by
  intro he
  subst he
  exact absurd h (by decide)

theorem isDigitChar_eq_false_of_lower {c : Char} (h : isLowerChar c = true) :
    isDigitChar c = false := by
  simp only [isLowerChar, Bool.and_eq_true, decide_eq_true_eq] at h
  simp only [isDigitChar, Bool.and_eq_false_iff, decide_eq_false_iff_not, not_le]
  omega

theorem matchOptLetterEnd_single {c : Char} (h : isLowerChar c = true) :
    matchOptLetterEnd [c] = true := by
  simp [matchOptLetterEnd, matchDollar, h]

theorem matchDollar_inv : ∀ {t : List Char}, matchDollar t = true → t = [] ∨ t = ['\n']
  | [], _ => Or.inl rfl
  | [c], h => by
    simp only [matchDollar, decide_eq_true_eq] at h
    exact Or.inr (by rw [h])
  | _ :: _ :: _, h => by simp [matchDollar] at h

theorem matchOptLetterEnd_inv {t : List Char} (h : matchOptLetterEnd t = true) :
    t = [] ∨ t = ['\n'] ∨ ∃ c, isLowerChar c = true ∧ (t = [c] ∨ t = [c, '\n']) := by
  cases t with
  | nil => exact Or.inl rfl
  | cons c cs =>
    simp only [matchOptLetterEnd, Bool.or_eq_true, Bool.and_eq_true] at h
    rcases h with ⟨hc, hd⟩ | hd
    · rcases matchDollar_inv hd with rfl | rfl
      · exact Or.inr (Or.inr ⟨c, hc, Or.inl rfl⟩)
      · exact Or.inr (Or.inr ⟨c, hc, Or.inr rfl⟩)
    · rcases matchDollar_inv hd with h' | h'
      · exact absurd h' (by simp)
      · exact Or.inr (Or.inl h')

theorem matchWordTail_append {w : List Char} (hw : ∀ c ∈ w, isLowerChar c = true)
    {d : Char} (hd : isDigitChar d = true) {t : List Char}
    (ht : matchOptLetterEnd t = true) :
    matchWordTail (w ++ '-' :: d :: t) = true := by
  induction w with
  | nil => simp [matchWordTail, hd, ht]
  | cons c w ih =>
    have hc : isLowerChar c = true := hw c (by simp)
    have hne : c ≠ '-' := isLowerChar_ne_hyphen hc
    have ih' := ih (fun x hx => hw x (by simp [hx]))
    simp only [List.cons_append, matchWordTail, if_neg hne, hc, Bool.true_and]
    exact ih'

theorem matchWordTail_inv : ∀ cs : List Char, matchWordTail cs = true →
    ∃ w d t, cs = w ++ '-' :: d :: t ∧ (∀ c ∈ w, isLowerChar c = true) ∧
      isDigitChar d = true ∧ matchOptLetterEnd t = true := by
  intro cs
  induction cs with
  | nil => intro h; exact absurd h (by simp [matchWordTail])
  | cons c cs ih =>
    intro h
    simp only [matchWordTail] at h
    by_cases hc : c = '-'
    · rw [if_pos hc] at h
      subst hc
      cases cs with
      | nil => exact absurd h (by simp)
      | cons d rest =>
        simp only [Bool.and_eq_true] at h
        exact ⟨[], d, rest, rfl, by simp, h.1, h.2⟩
    · rw [if_neg hc] at h
      simp only [Bool.and_eq_true] at h
      obtain ⟨w, d, t, heq, hw, hd, ht⟩ := ih h.2
      refine ⟨c :: w, d, t, by rw [List.cons_append, heq], ?_, hd, ht⟩
      intro x hx
      rcases List.mem_cons.mp hx with rfl | hx
      · exact h.1
      · exact hw x hx

theorem matchZoneOrRegion_construct {c1 c2 : Char} {w : List Char} {d : Char}
    {t : List Char} (h1 : isLowerChar c1 = true) (h2 : isLowerChar c2 = true)
    (hw : w ≠ []) (hwall : ∀ c ∈ w, isLowerChar c = true)
    (hd : isDigitChar d = true) (ht : matchOptLetterEnd t = true) :
    matchZoneOrRegion (c1 :: c2 :: '-' :: (w ++ '-' :: d :: t)) = true := by
  cases w with
  | nil => exact absurd rfl hw
  | cons c3 w' =>
    have hc3 : isLowerChar c3 = true := hwall c3 (by simp)
    simp only [List.cons_append, matchZoneOrRegion]
    rw [matchWordTail_append (fun x hx => hwall x (by simp [hx])) hd ht]
    simp [h1, h2, hc3]

theorem matchZoneOrRegion_inv : ∀ cs : List Char, matchZoneOrRegion cs = true →
    ∃ c1 c2 w d t, cs = c1 :: c2 :: '-' :: (w ++ '-' :: d :: t) ∧
      isLowerChar c1 = true ∧ isLowerChar c2 = true ∧ w ≠ [] ∧
      (∀ c ∈ w, isLowerChar c = true) ∧ isDigitChar d = true ∧
      matchOptLetterEnd t = true
  | [], h => by simp [matchZoneOrRegion] at h
  | [_], h => by simp [matchZoneOrRegion] at h
  | [_, _], h => by simp [matchZoneOrRegion] at h
  | [_, _, _], h => by simp [matchZoneOrRegion] at h
  | c1 :: c2 :: hy :: c3 :: cs, h => by
    simp only [matchZoneOrRegion, Bool.and_eq_true, decide_eq_true_eq] at h
    obtain ⟨⟨⟨⟨h1, h2⟩, hhy⟩, h3⟩, htail⟩ := h
    subst hhy
    obtain ⟨w, d, t, heq, hw, hd, ht⟩ := matchWordTail_inv cs htail
    refine ⟨c1, c2, c3 :: w, d, t, ?_, h1, h2, by simp, ?_, hd, ht⟩
    · rw [heq]; rfl
    · intro x hx
      rcases List.mem_cons.mp hx with rfl | hx
      · exact h3
      · exact hw x hx

end PKB

namespace PKB

/-! ### Evaluation of IsRegion / GetRegionFromZone on pattern-shaped strings -/

theorem pyRegexMatch_of_strict {s : String} (h : StrictZonePattern s) :
    pyRegexMatch s = true := by
  obtain ⟨c1, c2, w, d, t, heq, h1, h2, hw, hwall, hd, ht⟩ := h
  have ht' : matchOptLetterEnd t = true := by
    rcases ht with rfl | ⟨c, hc, rfl⟩
    · rfl
    · exact matchOptLetterEnd_single hc
  rw [pyRegexMatch, heq]
  exact matchZoneOrRegion_construct h1 h2 hw hwall hd ht'

theorem IsRegion_of_region_shape {s : String} {c1 c2 : Char} {w : List Char}
    {d : Char} (heq : s.data = c1 :: c2 :: '-' :: (w ++ '-' :: d :: []))
    (h1 : isLowerChar c1 = true) (h2 : isLowerChar c2 = true) (hw : w ≠ [])
    (hwall : ∀ c ∈ w, isLowerChar c = true) (hd : isDigitChar d = true) :
    IsRegion s = .ok true := by
  have hm : pyRegexMatch s = true :=
    pyRegexMatch_of_strict ⟨c1, c2, w, d, [], heq, h1, h2, hw, hwall, hd, Or.inl rfl⟩
  have hl : s.data.getLast? = some d := by
    rw [heq, show c1 :: c2 :: '-' :: (w ++ '-' :: d :: []) =
      (c1 :: c2 :: '-' :: (w ++ ['-'])) ++ [d] from by simp]
    exact List.getLast?_concat _
  simp [IsRegion, hm, hl, hd]

theorem IsRegion_of_zone_shape {s : String} {c1 c2 : Char} {w : List Char}
    {d c : Char} (heq : s.data = c1 :: c2 :: '-' :: (w ++ '-' :: d :: [c]))
    (h1 : isLowerChar c1 = true) (h2 : isLowerChar c2 = true) (hw : w ≠ [])
    (hwall : ∀ x ∈ w, isLowerChar x = true) (hd : isDigitChar d = true)
    (hc : isLowerChar c = true) :
    IsRegion s = .ok false := by
  have hm : pyRegexMatch s = true :=
    pyRegexMatch_of_strict
      ⟨c1, c2, w, d, [c], heq, h1, h2, hw, hwall, hd, Or.inr ⟨c, hc, rfl⟩⟩
  have hl : s.data.getLast? = some c := by
    rw [heq, show c1 :: c2 :: '-' :: (w ++ '-' :: d :: [c]) =
      (c1 :: c2 :: '-' :: (w ++ ['-', d])) ++ [c] from by simp]
    exact List.getLast?_concat _
  simp [IsRegion, hm, hl, isDigitChar_eq_false_of_lower hc]

theorem GetRegionFromZone_of_region_shape {s : String} {c1 c2 : Char}
    {w : List Char} {d : Char}
    (heq : s.data = c1 :: c2 :: '-' :: (w ++ '-' :: d :: []))
    (h1 : isLowerChar c1 = true) (h2 : isLowerChar c2 = true) (hw : w ≠ [])
    (hwall : ∀ c ∈ w, isLowerChar c = true) (hd : isDigitChar d = true) :
    GetRegionFromZone s = .ok s := by
  rw [GetRegionFromZone, IsRegion_of_region_shape heq h1 h2 hw hwall hd]

theorem dropLast_of_zone_shape {s : String} {c1 c2 : Char} {w : List Char}
    {d c : Char} (heq : s.data = c1 :: c2 :: '-' :: (w ++ '-' :: d :: [c])) :
    s.data.dropLast = c1 :: c2 :: '-' :: (w ++ '-' :: d :: []) := by
  rw [heq, show c1 :: c2 :: '-' :: (w ++ '-' :: d :: [c]) =
    (c1 :: c2 :: '-' :: (w ++ '-' :: d :: [])) ++ [c] from by simp]
  exact List.dropLast_concat

theorem GetRegionFromZone_of_zone_shape {s : String} {c1 c2 : Char}
    {w : List Char} {d c : Char}
    (heq : s.data = c1 :: c2 :: '-' :: (w ++ '-' :: d :: [c]))
    (h1 : isLowerChar c1 = true) (h2 : isLowerChar c2 = true) (hw : w ≠ [])
    (hwall : ∀ x ∈ w, isLowerChar x = true) (hd : isDigitChar d = true)
    (hc : isLowerChar c = true) :
    GetRegionFromZone s = .ok (String.mk s.data.dropLast) := by
  rw [GetRegionFromZone, IsRegion_of_zone_shape heq h1 h2 hw hwall hd hc]

end PKB

namespace PKB

/-! ### Lemmas about the GetRegionFromZones fold -/

theorem zonesAux_ok {r0 : String} :
    ∀ (rest zonesArg : List String),
      (∀ z ∈ rest, GetRegionFromZone z = .ok r0) →
      GetRegionFromZonesAux zonesArg (some r0) rest = .ok (some r0)
  | [], _, _ => rfl
  | z :: rest, zonesArg, hall => by
    have hz : GetRegionFromZone z = .ok r0 := hall z (by simp)
    have ih := zonesAux_ok rest zonesArg (fun x hx => hall x (by simp [hx]))
    rw [GetRegionFromZonesAux, hz]
    simpa using ih

theorem zonesAux_ok_inv {r0 : String} :
    ∀ (rest zonesArg : List String) (out : Option String),
      GetRegionFromZonesAux zonesArg (some r0) rest = .ok out →
      out = some r0 ∧ ∀ z ∈ rest, GetRegionFromZone z = .ok r0
  | [], _, out, h => by
    rw [GetRegionFromZonesAux] at h
    exact ⟨(Except.ok.injEq _ _).mp h |>.symm, by simp⟩
  | z :: rest, zonesArg, out, h => by
    rw [GetRegionFromZonesAux] at h
    cases hz : GetRegionFromZone z with
    | error e => rw [hz] at h; exact absurd h (by simp)
    | ok current =>
      rw [hz] at h
      dsimp only at h
      by_cases hc : r0 = current
      · subst hc
        rw [if_neg (by simp)] at h
        obtain ⟨hout, hrest⟩ := zonesAux_ok_inv rest zonesArg out h
        refine ⟨hout, ?_⟩
        intro x hx
        rcases List.mem_cons.mp hx with rfl | hx
        · exact hz
        · exact hrest x hx
      · rw [if_pos hc] at h
        exact absurd h (by simp)

theorem zonesAux_cases {r0 : String} :
    ∀ (rest zonesArg : List String),
      (∀ z ∈ rest, ∃ v, GetRegionFromZone z = .ok v) →
      GetRegionFromZonesAux zonesArg (some r0) rest = .ok (some r0) ∨
        ∃ m, GetRegionFromZonesAux zonesArg (some r0) rest = .error (.exception m)
  | [], _, _ => Or.inl rfl
  | z :: rest, zonesArg, hall => by
    obtain ⟨v, hz⟩ := hall z (by simp)
    rw [GetRegionFromZonesAux, hz]
    dsimp only
    by_cases hc : r0 = v
    · subst hc
      rw [if_neg (by simp)]
      exact zonesAux_cases rest zonesArg (fun x hx => hall x (by simp [hx]))
    · rw [if_pos hc]
      exact Or.inr ⟨_, rfl⟩

/-! ### Lemmas about the command runner -/

theorem body_ok {res : CommandResult} (h0 : res.retcode = 0) (he : res.stderr = "") :
    IssueRetryableCommandBody none res = .ok (res.stdout, res.stderr) := by
  simp [IssueRetryableCommandBody, IssueCommandModel, h0, he]

theorem body_nonzero {res : CommandResult} (h0 : res.retcode ≠ 0) :
    IssueRetryableCommandBody none res
      = .error (.calledProcess "Command returned a non-zero exit code.\n") := by
  simp [IssueRetryableCommandBody, IssueCommandModel, h0]

theorem body_stderr {res : CommandResult} (h0 : res.retcode = 0)
    (he : res.stderr ≠ "") :
    IssueRetryableCommandBody none res
      = .error (.calledProcess ("The command had output on stderr:\n" ++ res.stderr)) := by
  simp [IssueRetryableCommandBody, IssueCommandModel, h0, he]

theorem RetryCall_ok {attempt : Nat → Except CmdError (String × String)}
    {i : Nat} {v : String × String} (h : attempt i = .ok v) :
    ∀ n, RetryCall attempt i (n + 1) = (.ok v, 1) := by
  intro n
  cases n with
  | zero => rw [RetryCall, h]
  | succ n => rw [RetryCall, h]

theorem RetryCall_succeeds (attempt : Nat → Except CmdError (String × String))
    {v : String × String} :
    ∀ (k i r : Nat), k < r →
      (∀ m, m < k → ∃ e, attempt (i + m) = .error e) →
      attempt (i + k) = .ok v →
      RetryCall attempt i r = (.ok v, k + 1) := by
  intro k
  induction k with
  | zero =>
    intro i r hr _ hok
    rw [Nat.add_zero] at hok
    obtain ⟨r', rfl⟩ : ∃ r', r = r' + 1 := ⟨r - 1, by omega⟩
    exact RetryCall_ok hok r'
  | succ k ih =>
    intro i r hr hfail hok
    obtain ⟨r'', rfl⟩ : ∃ r'', r = r'' + 2 := ⟨r - 2, by omega⟩
    obtain ⟨e, he⟩ := hfail 0 (by omega)
    rw [Nat.add_zero] at he
    rw [RetryCall, he]
    have hrec : RetryCall attempt (i + 1) (r'' + 1) = (.ok v, k + 1) := by
      refine ih (i + 1) (r'' + 1) (by omega) ?_ ?_
      · intro m hm
        obtain ⟨e', he'⟩ := hfail (m + 1) (by omega)
        exact ⟨e', by rw [show i + 1 + m = i + (m + 1) by omega]; exact he'⟩
      · rw [show i + 1 + k = i + (k + 1) by omega]
        exact hok
    rw [hrec]

theorem RetryCall_exhausts (attempt : Nat → Except CmdError (String × String))
    {e : CmdError} :
    ∀ (r i : Nat), 0 < r →
      (∀ m, m < r → attempt (i + m) = .error e) →
      RetryCall attempt i r = (.error (.retryBudgetExhausted e), r) := by
  intro r
  induction r with
  | zero => intro i h; omega
  | succ r ih =>
    intro i _ hfail
    cases r with
    | zero =>
      have h0 := hfail 0 (by omega)
      rw [Nat.add_zero] at h0
      rw [RetryCall, h0]
    | succ r' =>
      have h0 := hfail 0 (by omega)
      rw [Nat.add_zero] at h0
      rw [RetryCall, h0]
      have hrec : RetryCall attempt (i + 1) (r' + 1)
          = (.error (.retryBudgetExhausted e), r' + 1) := by
        refine ih (i + 1) (by omega) ?_
        intro m hm
        rw [show i + 1 + m = i + (m + 1) by omega]
        exact hfail (m + 1) (by omega)
      rw [hrec]

/-! ### pyJoin agrees with String.intercalate -/

theorem pyJoin_cons_append (sep a acc : String) :
    ∀ as, pyJoin sep ((acc ++ sep ++ a) :: as) = acc ++ sep ++ pyJoin sep (a :: as)
  | [] => rfl
  | b :: bs => by
    show (acc ++ sep ++ a) ++ sep ++ pyJoin sep (b :: bs)
        = acc ++ sep ++ (a ++ sep ++ pyJoin sep (b :: bs))
    simp [String.append_assoc]

theorem intercalate_go_eq (sep : String) :
    ∀ (l : List String) (acc : String),
      String.intercalate.go acc sep l = pyJoin sep (acc :: l)
  | [], _ => rfl
  | a :: as, acc => by
    rw [String.intercalate.go, intercalate_go_eq sep as (acc ++ sep ++ a),
      pyJoin_cons_append]
    rfl

theorem pyJoin_eq_intercalate (sep : String) :
    ∀ l, pyJoin sep l = String.intercalate sep l
  | [] => rfl
  | a :: as => by rw [String.intercalate, intercalate_go_eq]

end PKB

namespace PKB

/-! ### Claim theorems: command runner -/

/-- C1: for every command invocation, IssueRetryableCommand classifies the run
as a failure (raising CalledProcessException) when the exit code is zero but
stderr is non-empty, and returns the (stdout, stderr) pair when the exit code
is zero and stderr is empty. -/
theorem spec_C1 (res : CommandResult) (h0 : res.retcode = 0) :
    (res.stderr ≠ "" →
      IssueRetryableCommandBody none res
        = .error (.calledProcess ("The command had output on stderr:\n" ++ res.stderr)))
    ∧ (res.stderr = "" →
      IssueRetryableCommandBody none res = .ok (res.stdout, res.stderr)) :=
  ⟨fun he => body_stderr h0 he, fun he => body_ok h0 he⟩

theorem spec_C1_witness :
    IssueRetryableCommandBody none ⟨"out", "oops", 0⟩
      = .error (.calledProcess ("The command had output on stderr:\noops"))
    ∧ IssueRetryableCommandBody none ⟨"out", "", 0⟩ = .ok ("out", "") :=
  ⟨(spec_C1 ⟨"out", "oops", 0⟩ rfl).1 (by decide),
   (spec_C1 ⟨"out", "", 0⟩ rfl).2 rfl⟩

/-- C2: IssueRetryableCommand repeats the single attempt under the bounded
retry policy: a command failing with nonzero exit on the first K-1 attempts and
succeeding on the Kth (K within the budget) yields the successful result after
exactly K invocations; if every attempt within the budget fails, the call fails
with an error wrapping the last failure after exactly budget invocations. -/
theorem spec_C2 (attempts : Nat → CommandResult) (budget K : Nat)
    (hK : 1 ≤ K) (hKb : K ≤ budget)
    (hfail : ∀ i, i < K - 1 → (attempts i).retcode ≠ 0)
    (hok : (attempts (K - 1)).retcode = 0)
    (herr : (attempts (K - 1)).stderr = "") :
    IssueRetryableCommand attempts none budget
      = (.ok ((attempts (K - 1)).stdout, ""), K)
    ∧ ∀ attempts2 : Nat → CommandResult,
        (∀ i, i < budget → (attempts2 i).retcode ≠ 0) →
        IssueRetryableCommand attempts2 none budget
          = (.error (.retryBudgetExhausted
              (.calledProcess "Command returned a non-zero exit code.\n")), budget) := by
  constructor
  · have hsucc : (fun i => IssueRetryableCommandBody none (attempts i)) (0 + (K - 1))
        = .ok ((attempts (K - 1)).stdout, "") := by
      show IssueRetryableCommandBody none (attempts (0 + (K - 1))) = _
      rw [Nat.zero_add, body_ok hok herr, herr]
    have hfail' : ∀ m, m < K - 1 →
        ∃ e, (fun i => IssueRetryableCommandBody none (attempts i)) (0 + m)
          = .error e := by
      intro m hm
      show ∃ e, IssueRetryableCommandBody none (attempts (0 + m)) = .error e
      rw [Nat.zero_add]
      exact ⟨_, body_nonzero (hfail m hm)⟩
    have h := RetryCall_succeeds
      (fun i => IssueRetryableCommandBody none (attempts i))
      (K - 1) 0 budget (by omega) hfail' hsucc
    rw [IssueRetryableCommand, h, show K - 1 + 1 = K by omega]
  · intro attempts2 hall
    have hfail' : ∀ m, m < budget →
        (fun i => IssueRetryableCommandBody none (attempts2 i)) (0 + m)
          = .error (.calledProcess "Command returned a non-zero exit code.\n") := by
      intro m hm
      show IssueRetryableCommandBody none (attempts2 (0 + m)) = _
      rw [Nat.zero_add]
      exact body_nonzero (hall m hm)
    have h := RetryCall_exhausts
      (fun i => IssueRetryableCommandBody none (attempts2 i))
      budget 0 (by omega) hfail'
    rw [IssueRetryableCommand, h]

theorem spec_C2_witness :
    IssueRetryableCommand
      (fun i => if i = 0 then ⟨"", "boom", 1⟩ else ⟨"done", "", 0⟩) none 3
      = (.ok ("done", ""), 2) := by
  have h := (spec_C2
    (fun i => if i = 0 then ⟨"", "boom", 1⟩ else ⟨"done", "", 0⟩) 3 2
    (by omega) (by omega)
    (fun i hi => by
      have hi0 : i = 0 := by omega
      subst hi0
      decide)
    rfl rfl).1
  exact h

/-! ### Claim theorems: SQS client -/

/-- C3: constructing the SQS messaging client resolves the queue during
construction itself: a missing queue makes the constructor fail with
QueueNotFound, and an existing queue is stored in the constructed client. -/
theorem spec_C3 (env : SQSEnv) (region_name queue_name : String) :
    (env.queues region_name queue_name = none →
      AWSSQSInterface.init env region_name queue_name = .error .queueNotFound)
    ∧ ∀ q, env.queues region_name queue_name = some q →
        AWSSQSInterface.init env region_name queue_name
          = .ok ⟨region_name, queue_name, q⟩ := by
  constructor
  · intro h
    simp [AWSSQSInterface.init, get_queue_by_name, h]
  · intro q h
    simp [AWSSQSInterface.init, get_queue_by_name, h]

theorem spec_C3_witness :
    AWSSQSInterface.init ⟨fun _ _ => none⟩ "us-west-1" "perfkit_queue"
      = .error .queueNotFound
    ∧ AWSSQSInterface.init ⟨fun _ _ => some ⟨"http://q"⟩⟩ "us-west-1" "perfkit_queue"
      = .ok ⟨"us-west-1", "perfkit_queue", ⟨"http://q"⟩⟩ :=
  ⟨(spec_C3 ⟨fun _ _ => none⟩ "us-west-1" "perfkit_queue").1 rfl,
   (spec_C3 ⟨fun _ _ => some ⟨"http://q"⟩⟩ "us-west-1" "perfkit_queue").2 ⟨"http://q"⟩ rfl⟩

/-- C9: the acknowledge operation requires a pull response that actually
contains a message: a response without a Messages key raises KeyError and a
response with an empty message list raises IndexError, rather than returning
cleanly. -/
theorem spec_C9 (c : AWSSQSInterface) (response : SQSPullResponse) :
    (response.messages = none →
      c.acknowledge_received_message response = .error (.keyError "Messages"))
    ∧ (response.messages = some [] →
      c.acknowledge_received_message response = .error .indexError) := by
  constructor
  · intro h
    simp [AWSSQSInterface.acknowledge_received_message, h]
  · intro h
    simp [AWSSQSInterface.acknowledge_received_message, h]

theorem spec_C9_witness :
    AWSSQSInterface.acknowledge_received_message
      ⟨"us-west-1", "perfkit_queue", ⟨"http://q"⟩⟩ ⟨none⟩
      = .error (.keyError "Messages")
    ∧ AWSSQSInterface.acknowledge_received_message
      ⟨"us-west-1", "perfkit_queue", ⟨"http://q"⟩⟩ ⟨some []⟩
      = .error .indexError :=
  ⟨(spec_C9 ⟨"us-west-1", "perfkit_queue", ⟨"http://q"⟩⟩ ⟨none⟩).1 rfl,
   (spec_C9 ⟨"us-west-1", "perfkit_queue", ⟨"http://q"⟩⟩ ⟨some []⟩).2 rfl⟩

end PKB

namespace PKB

/-! ### Claim theorems: zone and region utilities -/

theorem getLast_of_region_shape {s : String} {c1 c2 : Char} {w : List Char}
    {d : Char} (heq : s.data = c1 :: c2 :: '-' :: (w ++ '-' :: d :: [])) :
    s.data.getLast? = some d := by
  rw [heq, show c1 :: c2 :: '-' :: (w ++ '-' :: d :: []) =
    (c1 :: c2 :: '-' :: (w ++ ['-'])) ++ [d] from by simp]
  exact List.getLast?_concat _

theorem getLast_of_zone_shape {s : String} {c1 c2 : Char} {w : List Char}
    {d c : Char} (heq : s.data = c1 :: c2 :: '-' :: (w ++ '-' :: d :: [c])) :
    s.data.getLast? = some c := by
  rw [heq, show c1 :: c2 :: '-' :: (w ++ '-' :: d :: [c]) =
    (c1 :: c2 :: '-' :: (w ++ ['-', d])) ++ [c] from by simp]
  exact List.getLast?_concat _

/-- C4: the zone/region functions satisfy the spec examples, and on every
string of the lexical pattern GetRegionFromZone strips the trailing letter
when one is present and returns the input unchanged otherwise. -/
theorem spec_C4 (s : String) (hs : StrictZonePattern s) :
    GetRegionFromZone "us-west-1a" = .ok "us-west-1"
    ∧ IsRegion "us-west-1" = .ok true
    ∧ IsRegion "us-west-1a" = .ok false
    ∧ ((∃ c, s.data.getLast? = some c ∧ isLowerChar c = true) →
        GetRegionFromZone s = .ok (String.mk s.data.dropLast))
    ∧ ((¬ ∃ c, s.data.getLast? = some c ∧ isLowerChar c = true) →
        GetRegionFromZone s = .ok s) := by
  obtain ⟨c1, c2, w, d, t, heq, h1, h2, hw, hwall, hd, ht⟩ := hs
  refine ⟨rfl, rfl, rfl, ?_, ?_⟩
  · intro hex
    rcases ht with rfl | ⟨c, hc, rfl⟩
    · obtain ⟨c, hcl, hcc⟩ := hex
      rw [getLast_of_region_shape heq] at hcl
      obtain rfl := Option.some.inj hcl
      exact absurd hd (by simp [isDigitChar_eq_false_of_lower hcc])
    · exact GetRegionFromZone_of_zone_shape heq h1 h2 hw hwall hd hc
  · intro hnex
    rcases ht with rfl | ⟨c, hc, rfl⟩
    · exact GetRegionFromZone_of_region_shape heq h1 h2 hw hwall hd
    · exact absurd ⟨c, getLast_of_zone_shape heq, hc⟩ hnex

theorem spec_C4_witness :
    GetRegionFromZone "us-west-1a" = .ok "us-west-1" :=
  (spec_C4 "us-west-1a"
    ⟨'u', 's', ['w', 'e', 's', 't'], '1', ['a'], rfl, by decide, by decide,
      by decide, by decide, by decide, Or.inr ⟨'a', by decide, rfl⟩⟩).1

/-- C5: a non-empty collection of zones that all derive to the same region
yields that region; the spec examples evaluate as stated; and any well-formed
collection with two zones deriving to different regions fails with the
mismatch Exception instead of returning a value. -/
theorem spec_C5 (zones : List String) (r : String) (hne : zones ≠ [])
    (hall : ∀ z ∈ zones, GetRegionFromZone z = .ok r) :
    GetRegionFromZones zones = .ok (some r)
    ∧ GetRegionFromZones ["us-west-1a", "us-west-1b"] = .ok (some "us-west-1")
    ∧ (∃ m, GetRegionFromZones ["us-west-1a", "us-east-1a"] = .error (.exception m))
    ∧ ∀ (zs : List String) (f : String → String),
        (∀ z ∈ zs, GetRegionFromZone z = .ok (f z)) →
        (∃ z1 ∈ zs, ∃ z2 ∈ zs, f z1 ≠ f z2) →
        ∃ m, GetRegionFromZones zs = .error (.exception m) := by
  refine ⟨?_, rfl, ⟨_, rfl⟩, ?_⟩
  · cases zones with
    | nil => exact absurd rfl hne
    | cons z0 rest =>
      have hz0 := hall z0 (by simp)
      rw [GetRegionFromZones, GetRegionFromZonesAux, hz0]
      dsimp only
      exact zonesAux_ok rest _ (fun x hx => hall x (by simp [hx]))
  · intro zs f hallf hmis
    cases zs with
    | nil => simp at hmis
    | cons z0 rest =>
      have hz0 := hallf z0 (by simp)
      rw [GetRegionFromZones, GetRegionFromZonesAux, hz0]
      dsimp only
      rcases @zonesAux_cases (f z0) rest (z0 :: rest)
          (fun x hx => ⟨f x, hallf x (by simp [hx])⟩) with hok | ⟨m, hm⟩
      · obtain ⟨_, hrest⟩ := zonesAux_ok_inv rest (z0 :: rest) (some (f z0)) hok
        obtain ⟨z1, hz1, z2, hz2, hne'⟩ := hmis
        have key : ∀ z ∈ z0 :: rest, f z = f z0 := by
          intro z hz
          rcases List.mem_cons.mp hz with rfl | hz
          · rfl
          · have h1 := hrest z hz
            rw [hallf z (by simp [hz])] at h1
            exact Except.ok.inj h1
        exact absurd ((key z1 hz1).trans (key z2 hz2).symm) hne'
      · exact ⟨m, hm⟩

theorem spec_C5_witness :
    GetRegionFromZones ["us-west-1a", "us-west-1b"] = .ok (some "us-west-1")
    ∧ ∃ m, GetRegionFromZones ["us-west-1a", "us-east-1a"]
        = .error (.exception m) :=
  ⟨(spec_C5 ["us-west-1a", "us-west-1b"] "us-west-1" (by simp) (by decide)).1,
   (spec_C5 ["us-west-1a", "us-west-1b"] "us-west-1" (by simp) (by decide)).2.2.1⟩

end PKB

namespace PKB

/-! ### Claim theorems: tag formatting -/

theorem FormatTagSpecifications_shape (resource_type : String)
    (tags_dict : List (String × String)) :
    FormatTagSpecifications resource_type tags_dict
      = "ResourceType=" ++ resource_type ++ ",Tags=["
        ++ pyJoin ","
          (tags_dict.map (fun kv => "\x7bKey=" ++ kv.1 ++ ",Value=" ++ kv.2 ++ "\x7d"))
        ++ "]" := rfl

/-- C6 counterexample: FormatTagSpecifications does not sort keys and its
output changes when the iteration order of the same map changes, refuting the
claimed lexicographic sorting and order-independence at a concrete input. -/
theorem spec_C6_counterexample :
    FormatTagSpecifications "instance" [("b", "2"), ("a", "1")]
      = "ResourceType=instance,Tags=[\x7bKey=b,Value=2\x7d,\x7bKey=a,Value=1\x7d]"
    ∧ FormatTagSpecifications "instance" [("b", "2"), ("a", "1")]
      ≠ FormatTagSpecifications "instance" [("a", "1"), ("b", "2")] :=
  ⟨rfl, by decide⟩

/-- C6 amended: FormatTagSpecifications produces the single string
ResourceType=<type>,Tags=[...] with one brace-delimited Key/Value group per
entry in the input map's iteration order; the keys are not sorted, so
re-orderings of the same map can change the output. -/
theorem spec_C6 (resource_type : String) (tags_dict : List (String × String)) :
    (FormatTagSpecifications resource_type tags_dict
      = "ResourceType=" ++ resource_type ++ ",Tags=["
        ++ String.intercalate ","
          (tags_dict.map (fun kv => "\x7bKey=" ++ kv.1 ++ ",Value=" ++ kv.2 ++ "\x7d"))
        ++ "]")
    ∧ FormatTagSpecifications resource_type [("b", "2"), ("a", "1")]
      ≠ FormatTagSpecifications resource_type [("a", "1"), ("b", "2")] := by
  constructor
  · rw [FormatTagSpecifications_shape, pyJoin_eq_intercalate]
  · intro h
    rw [FormatTagSpecifications_shape, FormatTagSpecifications_shape] at h
    have hd := congrArg String.data h
    simp only [String.data_append] at hd
    exact absurd (List.append_cancel_left (List.append_cancel_right hd)) (by decide)

/-- C8: FormatTags returns the Key=k,Value=v strings sorted by key,
deterministically for identical maps regardless of iteration order, and the
spec example evaluates as stated. -/
theorem spec_C8 (l1 l2 : List (String × String)) (h : l1.Perm l2) :
    FormatTags l1 = FormatTags l2
    ∧ (pySortedTags l1).Pairwise (fun p q => pyStrLe p.1 q.1 = true)
    ∧ FormatTags [("b", "2"), ("a", "1")] = ["Key=a,Value=1", "Key=b,Value=2"] := by
  refine ⟨?_, ?_, rfl⟩
  · have hs : pySortedTags l1 = pySortedTags l2 :=
      List.eq_of_perm_of_sorted
        ((List.perm_insertionSort tagOrder l1).trans
          (h.trans (List.perm_insertionSort tagOrder l2).symm))
        (List.sorted_insertionSort tagOrder l1)
        (List.sorted_insertionSort tagOrder l2)
    rw [FormatTags, FormatTags, hs]
  · have hsorted := List.sorted_insertionSort tagOrder l1
    refine List.Pairwise.imp ?_ hsorted
    intro p q hpq
    rcases tagOrder_iff.mp hpq with h1 | ⟨h1, _⟩
    · simp [pyStrLe, h1]
    · simp [pyStrLe, h1]

theorem spec_C8_witness :
    FormatTags [("b", "2"), ("a", "1")] = FormatTags [("a", "1"), ("b", "2")]
    ∧ FormatTags [("b", "2"), ("a", "1")] = ["Key=a,Value=1", "Key=b,Value=2"] :=
  ⟨(spec_C8 [("b", "2"), ("a", "1")] [("a", "1"), ("b", "2")]
      (List.Perm.swap ("a", "1") ("b", "2") [])).1,
   (spec_C8 [("b", "2"), ("a", "1")] [("a", "1"), ("b", "2")]
      (List.Perm.swap ("a", "1") ("b", "2") [])).2.2⟩

/-! ### Claim theorems: totality and idempotence of the zone functions -/

theorem getLast?_some_of_ne_nil : ∀ l : List Char, l ≠ [] → ∃ c, l.getLast? = some c
  | [], h => absurd rfl h
  | [a], _ => ⟨a, rfl⟩
  | a :: b :: l, _ => by
    obtain ⟨c, hc⟩ := getLast?_some_of_ne_nil (b :: l) (by simp)
    exact ⟨c, by rw [show (a :: b :: l).getLast? = (b :: l).getLast? from rfl, hc]⟩

/-- C7 counterexample: IsRegion and GetRegionFromZone are not total; on the
non-matching string "foo" both raise ValueError instead of returning a value. -/
theorem spec_C7_counterexample :
    IsRegion "foo" = .error (.valueError "foo is not a valid AWS zone or region name")
    ∧ GetRegionFromZone "foo"
      = .error (.valueError "foo is not a valid AWS zone or region name") :=
  ⟨rfl, rfl⟩

/-- C7 amended: IsRegion and GetRegionFromZone are pure functions that return a
value on every string accepted by the zone/region regex; on every string the
regex rejects, both fail with ValueError instead of returning a value. -/
theorem spec_C7 (s : String) :
    (pyRegexMatch s = true →
      (∃ b, IsRegion s = .ok b) ∧ ∃ r, GetRegionFromZone s = .ok r)
    ∧ (pyRegexMatch s = false →
      IsRegion s = .error (.valueError (s ++ " is not a valid AWS zone or region name"))
      ∧ GetRegionFromZone s
        = .error (.valueError (s ++ " is not a valid AWS zone or region name"))) := by
  constructor
  · intro hm
    obtain ⟨c1, c2, w, d, t, heq, -, -, -, -, -, -⟩ := matchZoneOrRegion_inv s.data hm
    have hne : s.data ≠ [] := by rw [heq]; simp
    obtain ⟨c, hc⟩ := getLast?_some_of_ne_nil s.data hne
    have hIs : IsRegion s = .ok (isDigitChar c) := by simp [IsRegion, hm, hc]
    refine ⟨⟨_, hIs⟩, ?_⟩
    rcases hdig : isDigitChar c with _ | _
    · rw [hdig] at hIs
      exact ⟨String.mk s.data.dropLast, by simp [GetRegionFromZone, hIs]⟩
    · rw [hdig] at hIs
      exact ⟨s, by simp [GetRegionFromZone, hIs]⟩
  · intro hm
    have hIs : IsRegion s
        = .error (.valueError (s ++ " is not a valid AWS zone or region name")) := by
      simp [IsRegion, hm]
    exact ⟨hIs, by simp [GetRegionFromZone, hIs]⟩

theorem spec_C7_witness :
    ((∃ b, IsRegion "us-west-1" = .ok b) ∧ ∃ r, GetRegionFromZone "us-west-1" = .ok r)
    ∧ IsRegion "foo!" = .error (.valueError "foo! is not a valid AWS zone or region name") :=
  ⟨(spec_C7 "us-west-1").1 rfl, ((spec_C7 "foo!").2 rfl).1⟩

/-- C10 counterexample: on z = "us-west-1a\n" (accepted by the Python regex
because `$` matches before a trailing newline) IsRegion does not fail, yet the
derived value is not a region and deriving twice differs from deriving once. -/
theorem spec_C10_counterexample :
    (∃ b, IsRegion "us-west-1a\n" = .ok b)
    ∧ (GetRegionFromZone "us-west-1a\n").bind IsRegion ≠ .ok true
    ∧ (GetRegionFromZone "us-west-1a\n").bind GetRegionFromZone
        ≠ GetRegionFromZone "us-west-1a\n" :=
  ⟨⟨false, rfl⟩,
   fun h => Bool.false_ne_true (Except.ok.inj h),
   fun h => absurd (Except.ok.inj h) (by decide)⟩

/-- C10 amended: for every string z on which IsRegion does not fail and whose
last character is not a newline, GetRegionFromZone z is a region
(IsRegion of it yields true) and GetRegionFromZone is idempotent at z. -/
theorem spec_C10 (z : String) (hdom : ∃ b, IsRegion z = .ok b)
    (hnl : z.data.getLast? ≠ some '\n') :
    (GetRegionFromZone z).bind IsRegion = .ok true
    ∧ (GetRegionFromZone z).bind GetRegionFromZone = GetRegionFromZone z := by
  obtain ⟨b, hb⟩ := hdom
  have hm : pyRegexMatch z = true := by
    by_contra hb'
    rw [Bool.not_eq_true] at hb'
    rw [IsRegion, hb'] at hb
    simp at hb
  obtain ⟨c1, c2, w, d, t, heq, h1, h2, hw, hwall, hd, ht⟩ :=
    matchZoneOrRegion_inv z.data hm
  rcases matchOptLetterEnd_inv ht with rfl | rfl | ⟨c, hc, rfl | rfl⟩
  · have hGz : GetRegionFromZone z = .ok z :=
      GetRegionFromZone_of_region_shape heq h1 h2 hw hwall hd
    rw [hGz]
    exact ⟨IsRegion_of_region_shape heq h1 h2 hw hwall hd,
      by rw [show (Except.ok z).bind GetRegionFromZone = GetRegionFromZone z from rfl, hGz]⟩
  · exact absurd (getLast_of_zone_shape heq) hnl
  · have hGz : GetRegionFromZone z = .ok (String.mk z.data.dropLast) :=
      GetRegionFromZone_of_zone_shape heq h1 h2 hw hwall hd hc
    have heq' : (String.mk z.data.dropLast).data = c1 :: c2 :: '-' :: (w ++ '-' :: d :: []) := by
      show z.data.dropLast = _
      exact dropLast_of_zone_shape heq
    rw [hGz]
    constructor
    · show IsRegion (String.mk z.data.dropLast) = .ok true
      exact IsRegion_of_region_shape heq' h1 h2 hw hwall hd
    · show GetRegionFromZone (String.mk z.data.dropLast) = .ok (String.mk z.data.dropLast)
      exact GetRegionFromZone_of_region_shape heq' h1 h2 hw hwall hd
  · refine absurd ?_ hnl
    rw [heq, show c1 :: c2 :: '-' :: (w ++ '-' :: d :: [c, '\n']) =
      (c1 :: c2 :: '-' :: (w ++ ['-', d, c])) ++ ['\n'] from by simp]
    exact List.getLast?_concat _

theorem spec_C10_witness :
    (GetRegionFromZone "us-west-1a").bind IsRegion = .ok true
    ∧ (GetRegionFromZone "us-west-1a").bind GetRegionFromZone
        = GetRegionFromZone "us-west-1a" :=
  spec_C10 "us-west-1a" ⟨false, rfl⟩ (by decide)

end PKB
